import Mathlib

/-!
# Verification of the flow-log parser (`src/main.mjs`)

This file gives a shallow embedding of the core pipeline of `main.mjs`:
the flow-record line parser (`parseLineFromLog`, `parseLog`), the lookup-table
builder (`parseCSVLine`, `buildLookupTable`), the protocol-number translation
(`handleFields`), and the aggregation loop of `main`.

JavaScript-level operations used by the code are modelled explicitly:
`String.prototype.trim`, `String.prototype.split` with a one-character
separator, `String.prototype.toLowerCase` (restricted to ASCII, the only
range the verified properties exercise), `parseInt(-, 10)`, JS `Map`
get/set, and JS object property read/assignment.  JS `Map`s and objects
(with non-index string keys, the only kind the program creates) are both
insertion-ordered with in-place overwrite, so both are modelled as
association lists with a first-match-replace `set`.
-/

set_option autoImplicit false

namespace FlowLog

/-- JS whitespace (`WhiteSpace` ∪ `LineTerminator`), as recognized by
`String.prototype.trim` and by `parseInt`'s leading-whitespace skip. -/
def isJsWs (c : Char) : Bool :=
  c == ' ' || c == '\t' || c == '\n' || c == '\r' || c == '\x0b' ||
  c == '\x0c' || c == ' ' || c == '﻿' || c == ' ' || c == ' '

/-- JS `String.prototype.trim`: drop leading and trailing JS whitespace. -/
def jsTrim (s : String) : String :=
  String.mk (((s.toList.dropWhile isJsWs).reverse.dropWhile isJsWs).reverse)

/-- Worker for `jsSplit`: `cur` is the field collected so far. -/
def splitAux (sep : Char) : List Char → List Char → List String
  | [], cur => [String.mk cur]
  | c :: cs, cur =>
    if c = sep then String.mk cur :: splitAux sep cs []
    else splitAux sep cs (cur ++ [c])

/-- JS `String.prototype.split` with a one-character separator string:
keeps empty fields, and `"".split(sep) = [""]`. -/
def jsSplit (s : String) (sep : Char) : List String :=
  splitAux sep s.toList []

/-- JS `String.prototype.toLowerCase`, restricted to ASCII case folding
(the program's keys and the verified properties only involve ASCII). -/
def jsToLower (s : String) : String :=
  String.mk (s.toList.map Char.toLower)

/-- Decimal value of a list of digit characters (most significant first). -/
def digitsVal (cs : List Char) : Nat :=
  cs.foldl (fun a c => a * 10 + (c.toNat - 48)) 0

/-- The longest leading run of decimal digits, as a number; `none` if there
is no leading digit (`parseInt` then yields `NaN`). -/
def leadingDigits (cs : List Char) : Option Nat :=
  let ds := cs.takeWhile Char.isDigit
  if ds.isEmpty then none else some (digitsVal ds)

/-- JS `parseInt(s, 10)`: skip leading whitespace, optional sign, then the
longest digit run; `none` models `NaN`.  (On the empty remainder both the
sign branches and the default branch yield `none`, so testing `head?` is
equivalent to matching the sign character off the front.) -/
def jsParseInt (s : String) : Option Int :=
  let cs := s.toList.dropWhile isJsWs
  if cs.head? = some '-' then (leadingDigits cs.tail).map (fun n => -(n : Int))
  else if cs.head? = some '+' then (leadingDigits cs.tail).map (fun n => (n : Int))
  else (leadingDigits cs).map (fun n => (n : Int))

/-- First-match lookup in an association list: JS `Map.prototype.get` /
object property read (`none` models `undefined`). -/
def jsMapGet {α : Type} : List (String × α) → String → Option α
  | [], _ => none
  | p :: rest, k => if p.1 = k then some p.2 else jsMapGet rest k

/-- First-match replace, else append: JS `Map.prototype.set` / object
property assignment (keys the program builds are never array indices, so
insertion order is preserved and an existing key keeps its position). -/
def jsMapSet {α : Type} : List (String × α) → String → α → List (String × α)
  | [], k, v => [(k, v)]
  | p :: rest, k, v => if p.1 = k then (k, v) :: rest else p :: jsMapSet rest k v

/-- Modelled from the spec: the IANA protocol-number table
(`iana-protocol-numbers.mjs`, imported by `main.mjs` but not part of the
core sources) is "a pre-built, static mapping from integer protocol number
to a record containing at least a canonical protocol name"; only the
`.name` field is read, so an entry is modelled as the name itself.
Definitions and theorems are parameterized over such a table. -/
def ProtocolTable : Type := Int → Option String

/-- The fixed v2 flow-log field list (`AVAILABLE_FIELDS_DEFAULT`). -/
def AVAILABLE_FIELDS_DEFAULT : List String :=
  ["version", "account-id", "interface-id", "srcaddr", "dstaddr", "srcport",
   "dstport", "protocol", "packets", "bytes", "start", "end", "action",
   "log-status"]

/-- `handleFields(key, value)`: for the `protocol` field, try
`parseInt(value, 10)` and index the protocol table; any failure
(`NaN` index or missing entry makes `.name` throw) is caught and the raw
value returned. -/
def handleFields (tbl : ProtocolTable) (key value : String) : String :=
  if key = "protocol" then
    match jsParseInt value with
    | none => value
    | some n =>
      match tbl n with
      | none => value
      | some protocolName => protocolName
  else value

/-- A parsed flow record: the object built by the `reduce` in
`parseLineFromLog`, one property per field name. -/
abbrev FlowRecord : Type := List (String × String)

/-- The `reduce` of `parseLineFromLog`: starting from `{}`, assign
`acc[format[idx]] = handleFields(format[idx], linesArr[idx])` positionally
(the zip ranges over the common length, which the caller has checked to be
equal on both sides). -/
def buildRecord (tbl : ProtocolTable) (format linesArr : List String) : FlowRecord :=
  (format.zip linesArr).foldl
    (fun acc kv => jsMapSet acc kv.1 (handleFields tbl kv.1 kv.2)) []

/-- `parseLineFromLog(line, format)`: trim, split on the single-space
separator, drop the line unless the token count equals the format length,
else build the record positionally via `handleFields`. -/
def parseLineFromLog (tbl : ProtocolTable) (line : String) (format : List String) :
    Option FlowRecord :=
  let linesArr := jsSplit (jsTrim line) ' '
  if linesArr.length ≠ format.length then none
  else some (buildRecord tbl format linesArr)

/-- `parseLog(buf)`: trim the buffer, split into lines, parse each line,
keep the non-null results in order. -/
def parseLog (tbl : ProtocolTable) (buf : String) : List FlowRecord :=
  ((jsSplit (jsTrim buf) '\n').map
    (fun line => parseLineFromLog tbl line AVAILABLE_FIELDS_DEFAULT)).filterMap id

/-- `serialize(k, v)`: the composite join key, lower-cased. -/
def serialize (k v : String) : String :=
  jsToLower (k ++ "," ++ v)

/-- The fixed lookup CSV format (`LOOKUP_DEFAULT_FORMAT`). -/
def LOOKUP_DEFAULT_FORMAT : List String := ["dstport", "protocol", "tag"]

/-- The `{key, value}` object returned by `parseCSVLine`. -/
structure LookupEntry where
  key : String
  value : String
deriving DecidableEq, Repr

/-- `parseCSVLine(line, format)`: trim, split on commas, reject a token
count other than the format length or an empty token among the first
three; otherwise serialize the first two tokens as the key and keep the
third verbatim as the value.  (Out-of-range JS indexing yields `undefined`,
modelled by the `getD "undefined"` defaults; with the 3-entry format the
length guard makes them unreachable.) -/
def parseCSVLine (line : String) (format : List String) : Option LookupEntry :=
  let linesArr := jsSplit (jsTrim line) ','
  if linesArr.length ≠ format.length then none
  else if linesArr.get? 0 = some "" ∨ linesArr.get? 1 = some "" ∨
      linesArr.get? 2 = some "" then none
  else some ⟨serialize ((linesArr.get? 0).getD "undefined")
      ((linesArr.get? 1).getD "undefined"),
    (linesArr.get? 2).getD "undefined"⟩

/-- One step of `buildLookupTable`'s `reduce`: insert (or overwrite) the
parsed entry, or keep the table unchanged for a rejected line. -/
def buildStep (acc : List (String × String)) (line : String) :
    List (String × String) :=
  match parseCSVLine line LOOKUP_DEFAULT_FORMAT with
  | some p => jsMapSet acc p.key p.value
  | none => acc

/-- `buildLookupTable(buf)`: trim the buffer, split into lines, fold the
accepted entries into an (initially empty) object. -/
def buildLookupTable (buf : String) : List (String × String) :=
  (jsSplit (jsTrim buf) '\n').foldl buildStep []

/-- The two count tables owned by the aggregation loop in `main`. -/
structure AggState where
  tagCounts : List (String × Nat)
  portProtocolCounts : List (String × Nat)
deriving DecidableEq, Repr

/-- The increment idiom of the aggregation loop:
`if (!m.get(k)) m.set(k, 0); m.set(k, m.get(k) + 1)` — the falsy test is
true exactly when the entry is absent (`undefined`) or `0`. -/
def mapBump (m : List (String × Nat)) (k : String) : List (String × Nat) :=
  let m1 := if (jsMapGet m k).getD 0 = 0 then jsMapSet m k 0 else m
  jsMapSet m1 k ((jsMapGet m1 k).getD 0 + 1)

/-- One iteration of `logs.forEach` in `main`: form the join key from the
record's `dstport` and `protocol` (a missing property reads as `undefined`
and stringifies to `"undefined"`), look it up in the table with fallback
tag `"untagged"`, and bump both count tables. -/
def aggregateStep (table : List (String × String)) (st : AggState)
    (log : FlowRecord) : AggState :=
  let portProtocolKey := serialize ((jsMapGet log "dstport").getD "undefined")
    ((jsMapGet log "protocol").getD "undefined")
  let tag := (jsMapGet table portProtocolKey).getD "untagged"
  { tagCounts := mapBump st.tagCounts tag
    portProtocolCounts := mapBump st.portProtocolCounts portProtocolKey }

/-- The initial count tables: `tagCounts` pre-seeded with `"untagged" → 0`,
`portProtocolCounts` empty. -/
def initialAggState : AggState :=
  { tagCounts := [("untagged", 0)], portProtocolCounts := [] }

/-- The whole aggregation pass of `main` over the parsed records. -/
def aggregate (table : List (String × String)) (logs : List FlowRecord) :
    AggState :=
  logs.foldl (aggregateStep table) initialAggState

/-- A concrete protocol table used by witnesses and counterexamples:
`6 → "tcp"`, `17 → "udp"`. -/
def exampleProtocolTable : ProtocolTable :=
  fun n => if n = 6 then some "tcp" else if n = 17 then some "udp" else none

/-- Total number of counted records in a count table. -/
def sumVals (m : List (String × Nat)) : Nat :=
  (m.map Prod.snd).sum

/-- Worker for `wsRunSplit`: skip whitespace runs, collect maximal
non-whitespace runs. -/
def wsRunSplitAux : List Char → List Char → List String
  | [], cur => if cur.isEmpty then [] else [String.mk cur]
  | c :: cs, cur =>
    if isJsWs c then
      if cur.isEmpty then wsRunSplitAux cs [] else String.mk cur :: wsRunSplitAux cs []
    else wsRunSplitAux cs (cur ++ [c])

/-- Stated from the spec's words, for comparison with the source's
single-space split: "Split the line on runs of whitespace (after trimming
leading/trailing whitespace)" — the fields of a line whose separators are
runs of one or more whitespace characters. -/
def wsRunSplit (s : String) : List String :=
  wsRunSplitAux (jsTrim s).toList []

/-- A line whose fields are separated by exactly one space character. -/
def joinSpace : List String → String
  | [] => ""
  | [t] => t
  | t :: ts => t ++ " " ++ joinSpace ts

/-- One step of the right-biased scan `lastAcceptedValue`. -/
def lastAccStep (k : String) (r : Option String) (line : String) : Option String :=
  match parseCSVLine line LOOKUP_DEFAULT_FORMAT with
  | some p => if p.key = k then some p.value else r
  | none => r

/-- Stated from the spec's words, for comparison with the table built by
`buildLookupTable`: the tag of the last accepted lookup line whose
normalized key is `k` ("the later line's value silently overwrites the
earlier one (last-write-wins)"). -/
def lastAcceptedValue (lines : List String) (k : String) : Option String :=
  lines.foldl (lastAccStep k) none

/-- The little-endian decimal digit list of `n` (least significant first;
`[n]` when `n < 10`, so never empty). -/
def natDigitsLE (n : Nat) : List Nat :=
  if n < 10 then [n] else n % 10 :: natDigitsLE (n / 10)
termination_by n
decreasing_by simp_wf; omega

/-- Value of a little-endian decimal digit list. -/
def digitsValLE : List Nat → Nat
  | [] => 0
  | d :: ds => d + 10 * digitsValLE ds

/-- The canonical decimal string of `n` (most significant digit first). -/
def natDecimal (n : Nat) : String :=
  String.mk ((natDigitsLE n).reverse.map Nat.digitChar)

/-! ## Association-list (JS `Map` / object) lemmas -/

theorem jsMapGet_jsMapSet_self {α : Type} (m : List (String × α)) (k : String) (v : α) :
    jsMapGet (jsMapSet m k v) k = some v := by
  induction m with
  | nil => simp [jsMapSet, jsMapGet]
  | cons p rest ih =>
    by_cases h : p.1 = k
    · simp [jsMapSet, h, jsMapGet]
    · simp [jsMapSet, h, jsMapGet, ih]

theorem jsMapGet_jsMapSet_ne {α : Type} (m : List (String × α)) (k k2 : String) (v : α)
    (h : k2 ≠ k) : jsMapGet (jsMapSet m k v) k2 = jsMapGet m k2 := by
  have hk : ¬k = k2 := fun e => h e.symm
  induction m with
  | nil => simp [jsMapSet, jsMapGet, hk]
  | cons p rest ih =>
    obtain ⟨a, b⟩ := p
    by_cases ha : a = k
    · subst ha
      simp [jsMapSet, jsMapGet, hk]
    · by_cases ha2 : a = k2 <;> simp [jsMapSet, jsMapGet, ha, ha2, ih, h]

theorem sumVals_jsMapSet (m : List (String × Nat)) (k : String) (v : Nat) :
    sumVals (jsMapSet m k v) + (jsMapGet m k).getD 0 = sumVals m + v := by
  induction m with
  | nil => simp [jsMapSet, jsMapGet, sumVals]
  | cons p rest ih =>
    by_cases h : p.1 = k
    · simp [jsMapSet, jsMapGet, h, sumVals]
      omega
    · simp only [jsMapSet, jsMapGet, h, if_neg, if_false, sumVals, List.map_cons,
        List.sum_cons] at *
      omega

theorem jsMapGet_mapBump_self (m : List (String × Nat)) (k : String) :
    jsMapGet (mapBump m k) k = some ((jsMapGet m k).getD 0 + 1) := by
  unfold mapBump
  by_cases h : (jsMapGet m k).getD 0 = 0
  · simp [h, jsMapGet_jsMapSet_self]
  · simp [h, jsMapGet_jsMapSet_self]

theorem jsMapGet_mapBump_ne (m : List (String × Nat)) (k k2 : String) (h : k2 ≠ k) :
    jsMapGet (mapBump m k) k2 = jsMapGet m k2 := by
  unfold mapBump
  by_cases h0 : (jsMapGet m k).getD 0 = 0 <;>
    simp [h0, jsMapGet_jsMapSet_ne _ _ _ _ h]

theorem sumVals_mapBump (m : List (String × Nat)) (k : String) :
    sumVals (mapBump m k) = sumVals m + 1 := by
  by_cases h : (jsMapGet m k).getD 0 = 0
  · have e : mapBump m k = jsMapSet (jsMapSet m k 0) k 1 := by
      simp [mapBump, h, jsMapGet_jsMapSet_self]
    rw [e]
    have h1 := sumVals_jsMapSet m k 0
    have h2 := sumVals_jsMapSet (jsMapSet m k 0) k 1
    rw [jsMapGet_jsMapSet_self] at h2
    simp only [Option.getD_some] at h2
    omega
  · have e : mapBump m k = jsMapSet m k ((jsMapGet m k).getD 0 + 1) := by
      simp [mapBump, h]
    rw [e]
    have h2 := sumVals_jsMapSet m k ((jsMapGet m k).getD 0 + 1)
    omega

/-! ## Aggregation lemmas and claims about the aggregation pass -/

theorem sumVals_foldl_aggregateStep (table : List (String × String)) :
    ∀ (logs : List FlowRecord) (st : AggState),
      sumVals ((logs.foldl (aggregateStep table) st).tagCounts) =
        sumVals st.tagCounts + logs.length ∧
      sumVals ((logs.foldl (aggregateStep table) st).portProtocolCounts) =
        sumVals st.portProtocolCounts + logs.length := by
  intro logs
  induction logs with
  | nil => intro st; simp
  | cons log rest ih =>
    intro st
    simp only [List.foldl_cons, List.length_cons]
    have h := ih (aggregateStep table st log)
    have e1 : sumVals (aggregateStep table st log).tagCounts =
        sumVals st.tagCounts + 1 := by
      simp [aggregateStep, sumVals_mapBump]
    have e2 : sumVals (aggregateStep table st log).portProtocolCounts =
        sumVals st.portProtocolCounts + 1 := by
      simp [aggregateStep, sumVals_mapBump]
    rw [h.1, h.2] at *
    omega

/-- **C4**: the aggregation pass drops no record: each record increments
exactly one tag-count bucket by 1 and exactly one port/protocol-count
bucket by 1 (all other buckets unchanged), and after the whole pass the
sum of all tag counts and the sum of all port/protocol counts each equal
the number of parsed records. -/
theorem aggregation_counts_every_record :
    ∀ (table : List (String × String)) (logs : List FlowRecord),
      sumVals (aggregate table logs).tagCounts = logs.length ∧
      sumVals (aggregate table logs).portProtocolCounts = logs.length ∧
      ∀ (st : AggState) (log : FlowRecord), ∃ t pk,
        jsMapGet (aggregateStep table st log).tagCounts t =
          some ((jsMapGet st.tagCounts t).getD 0 + 1) ∧
        (∀ t2, t2 ≠ t →
          jsMapGet (aggregateStep table st log).tagCounts t2 =
            jsMapGet st.tagCounts t2) ∧
        jsMapGet (aggregateStep table st log).portProtocolCounts pk =
          some ((jsMapGet st.portProtocolCounts pk).getD 0 + 1) ∧
        (∀ pk2, pk2 ≠ pk →
          jsMapGet (aggregateStep table st log).portProtocolCounts pk2 =
            jsMapGet st.portProtocolCounts pk2) := by
  intro table logs
  have hsum := sumVals_foldl_aggregateStep table logs initialAggState
  refine ⟨?_, ?_, ?_⟩
  · rw [aggregate, hsum.1]; simp [initialAggState, sumVals]
  · rw [aggregate, hsum.2]; simp [initialAggState, sumVals]
  · intro st log
    refine ⟨(jsMapGet table (serialize ((jsMapGet log "dstport").getD "undefined")
        ((jsMapGet log "protocol").getD "undefined"))).getD "untagged",
      serialize ((jsMapGet log "dstport").getD "undefined")
        ((jsMapGet log "protocol").getD "undefined"), ?_, ?_, ?_, ?_⟩
    · exact jsMapGet_mapBump_self st.tagCounts _
    · intro t2 ht2
      exact jsMapGet_mapBump_ne st.tagCounts _ t2 ht2
    · exact jsMapGet_mapBump_self st.portProtocolCounts _
    · intro pk2 hpk2
      exact jsMapGet_mapBump_ne st.portProtocolCounts _ pk2 hpk2

/-- Closed instance of `aggregation_counts_every_record` at concrete
inputs: two records, tag counts summing to 2. -/
theorem aggregation_counts_every_record_witness :
    sumVals (aggregate [("80,tcp", "web")]
      [[("dstport", "80"), ("protocol", "tcp")],
       [("dstport", "25"), ("protocol", "udp")]]).tagCounts = 2 := by
  have h := aggregation_counts_every_record [("80,tcp", "web")]
    [[("dstport", "80"), ("protocol", "tcp")],
     [("dstport", "25"), ("protocol", "udp")]]
  exact h.1

/-- **C5**: a flow record whose normalized join key is absent from the
lookup table increments the pre-seeded `"untagged"` tag count by exactly 1
and leaves every other tag-count entry unchanged (and the seed gives
`"untagged"` initial value 0). -/
theorem untagged_fallback :
    ∀ (table : List (String × String)) (st : AggState) (log : FlowRecord),
      jsMapGet table (serialize ((jsMapGet log "dstport").getD "undefined")
        ((jsMapGet log "protocol").getD "undefined")) = none →
      jsMapGet (aggregateStep table st log).tagCounts "untagged" =
        some ((jsMapGet st.tagCounts "untagged").getD 0 + 1) ∧
      (∀ t, t ≠ "untagged" →
        jsMapGet (aggregateStep table st log).tagCounts t =
          jsMapGet st.tagCounts t) ∧
      initialAggState.tagCounts = [("untagged", 0)] := by
  intro table st log h
  have e : aggregateStep table st log =
      { tagCounts := mapBump st.tagCounts "untagged"
        portProtocolCounts := mapBump st.portProtocolCounts
          (serialize ((jsMapGet log "dstport").getD "undefined")
            ((jsMapGet log "protocol").getD "undefined")) } := by
    simp [aggregateStep, h]
  refine ⟨?_, ?_, rfl⟩
  · rw [e]
    exact jsMapGet_mapBump_self st.tagCounts "untagged"
  · intro t ht
    rw [e]
    exact jsMapGet_mapBump_ne st.tagCounts "untagged" t ht

/-- Closed instance of `untagged_fallback`: an unmatched record bumps
`"untagged"` from its seeded 0 to 1. -/
theorem untagged_fallback_witness :
    jsMapGet (aggregateStep [] initialAggState
      [("dstport", "80"), ("protocol", "icmp")]).tagCounts "untagged" = some 1 := by
  have h := untagged_fallback [] initialAggState
    [("dstport", "80"), ("protocol", "icmp")] rfl
  exact h.1

/-! ## Case-insensitivity of the join -/

theorem jsToLower_append (a b : String) :
    jsToLower (a ++ b) = jsToLower a ++ jsToLower b := by
  obtain ⟨la⟩ := a
  obtain ⟨lb⟩ := b
  show String.mk (List.map Char.toLower (la ++ lb)) =
    String.mk (List.map Char.toLower la ++ List.map Char.toLower lb)
  rw [List.map_append]

theorem serialize_eq (k v : String) :
    serialize k v = jsToLower k ++ "," ++ jsToLower v := by
  unfold serialize
  rw [jsToLower_append, jsToLower_append]
  have hc : jsToLower "," = "," := rfl
  rw [hc]

theorem serialize_congr {k v k2 v2 : String} (hk : jsToLower k = jsToLower k2)
    (hv : jsToLower v = jsToLower v2) : serialize k v = serialize k2 v2 := by
  rw [serialize_eq, serialize_eq, hk, hv]

/-- **C3**: the join is case-insensitive.  First part: a record whose
`dstport` lower-cases to `"80"` and whose `protocol` lower-cases to
`"tcp"`, joined against a table mapping `"80,tcp"` to `"web"`, increments
the `"web"` tag count by 1 and the `"80,tcp"` port/protocol count by 1.
Second part: replacing the `dstport`/`protocol` values of the records by
any case-variants (equal lower-casings) leaves both count tables of the
whole aggregation pass unchanged. -/
theorem case_insensitive_join :
    (∀ (st : AggState) (table : List (String × String)) (log : FlowRecord)
        (dp p : String),
      jsMapGet log "dstport" = some dp → jsMapGet log "protocol" = some p →
      jsToLower dp = "80" → jsToLower p = "tcp" →
      jsMapGet table "80,tcp" = some "web" →
      jsMapGet (aggregateStep table st log).tagCounts "web" =
        some ((jsMapGet st.tagCounts "web").getD 0 + 1) ∧
      jsMapGet (aggregateStep table st log).portProtocolCounts "80,tcp" =
        some ((jsMapGet st.portProtocolCounts "80,tcp").getD 0 + 1)) ∧
    (∀ (table : List (String × String)) (logs logs2 : List FlowRecord),
      List.Forall₂ (fun l l2 =>
        jsToLower ((jsMapGet l "dstport").getD "undefined") =
          jsToLower ((jsMapGet l2 "dstport").getD "undefined") ∧
        jsToLower ((jsMapGet l "protocol").getD "undefined") =
          jsToLower ((jsMapGet l2 "protocol").getD "undefined")) logs logs2 →
      aggregate table logs = aggregate table logs2) := by
  constructor
  · intro st table log dp p hdp hp h80 htcp htab
    have hkey : serialize ((jsMapGet log "dstport").getD "undefined")
        ((jsMapGet log "protocol").getD "undefined") = "80,tcp" := by
      rw [hdp, hp]
      simp only [Option.getD_some]
      rw [serialize_eq, h80, htcp]
      rfl
    have e : aggregateStep table st log =
        { tagCounts := mapBump st.tagCounts "web"
          portProtocolCounts := mapBump st.portProtocolCounts "80,tcp" } := by
      simp [aggregateStep, hkey, htab]
    rw [e]
    exact ⟨jsMapGet_mapBump_self st.tagCounts "web",
      jsMapGet_mapBump_self st.portProtocolCounts "80,tcp"⟩
  · intro table logs logs2 hf
    have main : ∀ st, logs.foldl (aggregateStep table) st =
        logs2.foldl (aggregateStep table) st := by
      induction hf with
      | nil => intro st; rfl
      | cons hR hrest ih =>
        rename_i l l2 ls ls2
        intro st
        simp only [List.foldl_cons]
        have estep : aggregateStep table st l = aggregateStep table st l2 := by
          have hkey := serialize_congr hR.1 hR.2
          simp [aggregateStep, hkey]
        rw [estep]
        exact ih (aggregateStep table st l2)
    exact main initialAggState

/-- Closed instance of `case_insensitive_join`: an upper-case `"TCP"`
record joins the lower-case `"80,tcp"` lookup entry, and differs from its
lower-case variant in neither count table. -/
theorem case_insensitive_join_witness :
    jsMapGet (aggregateStep [("80,tcp", "web")] initialAggState
      [("dstport", "80"), ("protocol", "TCP")]).tagCounts "web" = some 1 ∧
    aggregate [("80,tcp", "web")] [[("dstport", "80"), ("protocol", "TCP")]] =
      aggregate [("80,tcp", "web")] [[("dstport", "80"), ("protocol", "tcp")]] := by
  constructor
  · have h := case_insensitive_join.1 initialAggState [("80,tcp", "web")]
      [("dstport", "80"), ("protocol", "TCP")] "80" "TCP" rfl rfl rfl (by decide)
      (by decide)
    simpa [initialAggState, jsMapGet] using h.1
  · exact case_insensitive_join.2 [("80,tcp", "web")] _ _
      (List.Forall₂.cons ⟨rfl, by decide⟩ List.Forall₂.nil)

/-! ## Lookup-table builder claims -/

/-- **C7**: a CSV line that splits on commas into exactly 3 tokens, none
empty, yields a table entry keyed by the lower-cased comma-join of the
first two tokens, with the third token as value, stored unmodified (not
lower-cased). -/
theorem lookup_accepts_wellformed :
    ∀ (acc : List (String × String)) (line a b c : String),
      jsSplit (jsTrim line) ',' = [a, b, c] →
      a ≠ "" → b ≠ "" → c ≠ "" →
      buildStep acc line = jsMapSet acc (jsToLower (a ++ "," ++ b)) c ∧
      jsMapGet (buildStep acc line) (jsToLower (a ++ "," ++ b)) = some c := by
  intro acc line a b c hsplit ha hb hc
  have hp : parseCSVLine line LOOKUP_DEFAULT_FORMAT =
      some ⟨serialize a b, c⟩ := by
    unfold parseCSVLine
    rw [hsplit]
    simp [LOOKUP_DEFAULT_FORMAT, ha, hb, hc]
  have hstep : buildStep acc line = jsMapSet acc (serialize a b) c := by
    unfold buildStep
    rw [hp]
  refine ⟨?_, ?_⟩
  · rw [hstep]; rfl
  · rw [hstep]
    have : jsToLower (a ++ "," ++ b) = serialize a b := rfl
    rw [this]
    exact jsMapGet_jsMapSet_self acc (serialize a b) c

/-- Closed instance of `lookup_accepts_wellformed`: `"80,TCP,Web"` is
stored under key `"80,tcp"` with the tag `"Web"` kept verbatim. -/
theorem lookup_accepts_wellformed_witness :
    jsMapGet (buildStep [("x", "y")] "80,TCP,Web") "80,tcp" = some "Web" := by
  have h := lookup_accepts_wellformed [("x", "y")] "80,TCP,Web" "80" "TCP" "Web"
    (by decide) (by decide) (by decide) (by decide)
  have e : jsToLower ("80" ++ "," ++ "TCP") = "80,tcp" := by decide
  rw [e] at h
  exact h.2

/-- **C8**: a CSV line that violates the field-count constraint (comma
split ≠ 3 tokens) or the non-empty constraint (an empty token) adds no
entry and modifies no existing entry: the table is returned unchanged. -/
theorem lookup_rejects_malformed :
    ∀ (acc : List (String × String)) (line : String),
      ((jsSplit (jsTrim line) ',').length ≠ LOOKUP_DEFAULT_FORMAT.length ∨
        "" ∈ jsSplit (jsTrim line) ',') →
      buildStep acc line = acc := by
  intro acc line h
  have hp : parseCSVLine line LOOKUP_DEFAULT_FORMAT = none := by
    unfold parseCSVLine
    rcases h with h | h
    · simp [h]
    · by_cases hl : (jsSplit (jsTrim line) ',').length = LOOKUP_DEFAULT_FORMAT.length
      · have h3 : (jsSplit (jsTrim line) ',').length = 3 := hl
        obtain ⟨a, b, c, habc⟩ := List.length_eq_three.mp h3
        rw [habc]
        rw [habc] at h
        simp only [List.mem_cons, List.not_mem_nil, or_false] at h
        rcases h with h | h | h <;> simp [LOOKUP_DEFAULT_FORMAT, h]
      · simp [hl]
  unfold buildStep
  rw [hp]

/-- Closed instance of `lookup_rejects_malformed`: a line with an empty
protocol token leaves the table untouched. -/
theorem lookup_rejects_malformed_witness :
    buildStep [("k", "v")] "80,,web" = [("k", "v")] := by
  have h := lookup_rejects_malformed [("k", "v")] "80,,web"
    (Or.inr (by decide))
  exact h

/-- `jsMapGet` after the builder's fold is the right-biased scan
`lastAccStep` started from the current binding. -/
theorem jsMapGet_foldl_buildStep :
    ∀ (lines : List String) (acc : List (String × String)) (k : String),
      jsMapGet (lines.foldl buildStep acc) k =
        lines.foldl (lastAccStep k) (jsMapGet acc k) := by
  intro lines
  induction lines with
  | nil => intro acc k; rfl
  | cons line rest ih =>
    intro acc k
    simp only [List.foldl_cons]
    rw [ih]
    congr 1
    unfold buildStep lastAccStep
    cases hp : parseCSVLine line LOOKUP_DEFAULT_FORMAT with
    | none => rfl
    | some p =>
      by_cases hk : p.key = k
      · subst hk
        simp [jsMapGet_jsMapSet_self]
      · simp [hk, jsMapGet_jsMapSet_ne acc p.key k p.value (fun e => hk e.symm)]

/-- A scan over lines none of which is accepted with key `k` keeps its
accumulator. -/
theorem lastAccStep_foldl_frame :
    ∀ (post : List String) (k : String) (r : Option String),
      (∀ l ∈ post, ∀ q : LookupEntry,
        parseCSVLine l LOOKUP_DEFAULT_FORMAT = some q → q.key ≠ k) →
      post.foldl (lastAccStep k) r = r := by
  intro post
  induction post with
  | nil => intro k r _; rfl
  | cons l rest ih =>
    intro k r h
    simp only [List.foldl_cons]
    have e : lastAccStep k r l = r := by
      unfold lastAccStep
      cases hp : parseCSVLine l LOOKUP_DEFAULT_FORMAT with
      | none => rfl
      | some q =>
        simp [h l (List.mem_cons_self l rest) q hp]
    rw [e]
    exact ih k r (fun l2 hl2 q hq => h l2 (List.mem_cons_of_mem l hl2) q hq)

/-- **C9**: last-write-wins on duplicate keys: when two accepted lookup
lines `l1` (earlier) and `l2` (later) normalize to the same key and no
accepted line after `l2` has that key, the built table maps the key to
`l2`'s tag. -/
theorem lookup_last_write_wins :
    ∀ (buf : String) (pre mid post : List String) (l1 l2 : String)
      (p1 p2 : LookupEntry),
      jsSplit (jsTrim buf) '\n' = pre ++ l1 :: mid ++ l2 :: post →
      parseCSVLine l1 LOOKUP_DEFAULT_FORMAT = some p1 →
      parseCSVLine l2 LOOKUP_DEFAULT_FORMAT = some p2 →
      p1.key = p2.key →
      (∀ l ∈ post, ∀ q : LookupEntry,
        parseCSVLine l LOOKUP_DEFAULT_FORMAT = some q → q.key ≠ p2.key) →
      jsMapGet (buildLookupTable buf) p2.key = some p2.value := by
  intro buf pre mid post l1 l2 p1 p2 hlines h1 h2 hkeys hpost
  unfold buildLookupTable
  rw [hlines, jsMapGet_foldl_buildStep]
  rw [List.foldl_append]
  simp only [List.foldl_cons, List.foldl_append]
  have e2 : ∀ r, lastAccStep p2.key r l2 = some p2.value := by
    intro r
    unfold lastAccStep
    rw [h2]
    simp
  rw [e2]
  exact lastAccStep_foldl_frame post p2.key (some p2.value) hpost

/-- Closed instance of `lookup_last_write_wins`: two case-variant lines
with the same normalized key; the later tag wins. -/
theorem lookup_last_write_wins_witness :
    jsMapGet (buildLookupTable "80,tcp,web1\n80,TCP,web2") "80,tcp" =
      some "web2" := by
  have h := lookup_last_write_wins "80,tcp,web1\n80,TCP,web2" [] [] []
    "80,tcp,web1" "80,TCP,web2" ⟨"80,tcp", "web1"⟩ ⟨"80,tcp", "web2"⟩
    (by decide) (by decide) (by decide) rfl
    (by intro l hl; simp at hl)
  exact h

/-! ## Protocol-number translation claims -/

/-- Characterization of `handleFields` on the `protocol` field, shared by
several claims. -/
theorem handleFields_spec (tbl : ProtocolTable) (value : String) :
    (∀ n : Int, jsParseInt value = some n →
      ∀ nm, tbl n = some nm → handleFields tbl "protocol" value = nm) ∧
    ((jsParseInt value).bind tbl = none →
      handleFields tbl "protocol" value = value) := by
  constructor
  · intro n hn nm hnm
    simp [handleFields, hn, hnm]
  · intro hnone
    cases hn : jsParseInt value with
    | none => simp [handleFields, hn]
    | some n =>
      rw [hn] at hnone
      simp only [Option.some_bind] at hnone
      simp [handleFields, hn, hnone]

/-- **C6**: protocol-number translation is total and never raises: for
every input string it returns a string — the canonical protocol name when
integer parsing and table lookup both succeed, and the original input
string unchanged on any failure path (no digits parsed, or no table entry
for the parsed integer). -/
theorem protocol_translation_total :
    ∀ (tbl : ProtocolTable) (value : String),
      (∀ n : Int, jsParseInt value = some n →
        ∀ nm, tbl n = some nm → handleFields tbl "protocol" value = nm) ∧
      ((jsParseInt value).bind tbl = none →
        handleFields tbl "protocol" value = value) := by
  intro tbl value
  exact handleFields_spec tbl value

/-- Closed instance of `protocol_translation_total`: `"6"` translates to
`"tcp"`, the unparsable `"abc"` comes back unchanged. -/
theorem protocol_translation_total_witness :
    handleFields exampleProtocolTable "protocol" "6" = "tcp" ∧
    handleFields exampleProtocolTable "protocol" "abc" = "abc" :=
  ⟨(protocol_translation_total exampleProtocolTable "6").1 6 (by decide) "tcp"
      (by decide),
   (protocol_translation_total exampleProtocolTable "abc").2 (by decide)⟩

/-! ## Decimal-prefix machinery for the `parseInt` prefix claim -/

theorem natDigitsLE_ne_nil (n : Nat) : natDigitsLE n ≠ [] := by
  unfold natDigitsLE
  by_cases h : n < 10 <;> simp [h]

theorem natDigitsLE_lt (n : Nat) : ∀ d ∈ natDigitsLE n, d < 10 := by
  induction n using Nat.strong_induction_on with
  | _ n ih =>
    unfold natDigitsLE
    by_cases h : n < 10
    · simp [h]
    · simp only [h, if_false, reduceIte, List.mem_cons]
      intro d hd
      rcases hd with hd | hd
      · omega
      · exact ih (n / 10) (by omega) d hd

theorem digitsValLE_natDigitsLE (n : Nat) : digitsValLE (natDigitsLE n) = n := by
  induction n using Nat.strong_induction_on with
  | _ n ih =>
    unfold natDigitsLE
    by_cases h : n < 10
    · simp [h, digitsValLE]
    · simp only [h, if_false, reduceIte, digitsValLE]
      rw [ih (n / 10) (by omega)]
      omega

theorem digitChar_props (d : Nat) (h : d < 10) :
    (Nat.digitChar d).isDigit = true ∧ isJsWs (Nat.digitChar d) = false ∧
    Nat.digitChar d ≠ '-' ∧ Nat.digitChar d ≠ '+' ∧
    (Nat.digitChar d).toNat - 48 = d := by
  interval_cases d <;> exact ⟨by decide, by decide, by decide, by decide, by decide⟩

theorem foldr_digitChar_val :
    ∀ (ds : List Nat), (∀ d ∈ ds, d < 10) → ∀ (a : Nat),
      ds.foldr (fun d y => y * 10 + ((Nat.digitChar d).toNat - 48)) a =
        a * 10 ^ ds.length + digitsValLE ds := by
  intro ds
  induction ds with
  | nil => intro _ a; simp [digitsValLE]
  | cons d ds ih =>
    intro h a
    have hd : d < 10 := h d (List.mem_cons_self d ds)
    have hds : ∀ d2 ∈ ds, d2 < 10 := fun d2 h2 => h d2 (List.mem_cons_of_mem d h2)
    simp only [List.foldr_cons, List.length_cons, digitsValLE]
    rw [ih hds a, (digitChar_props d hd).2.2.2.2]
    ring

theorem digitsVal_natDecimal (n : Nat) :
    digitsVal ((natDigitsLE n).reverse.map Nat.digitChar) = n := by
  unfold digitsVal
  rw [List.map_reverse, List.foldl_reverse]
  have h := foldr_digitChar_val (natDigitsLE n) (natDigitsLE_lt n) 0
  rw [digitsValLE_natDigitsLE] at h
  simp only [zero_mul, zero_add] at h
  rw [List.foldr_map]
  exact h

theorem takeWhile_append_of_head {p : Char → Bool} :
    ∀ (l1 l2 : List Char), (∀ c ∈ l1, p c = true) →
      (∀ c, l2.head? = some c → p c = false) →
      (l1 ++ l2).takeWhile p = l1 := by
  intro l1
  induction l1 with
  | nil =>
    intro l2 _ h2
    cases l2 with
    | nil => rfl
    | cons c cs =>
      simp [List.takeWhile_cons, h2 c rfl]
  | cons c cs ih =>
    intro l2 h1 h2
    simp only [List.cons_append, List.takeWhile_cons,
      h1 c (List.mem_cons_self c cs), if_true]
    rw [ih l2 (fun c2 hc2 => h1 c2 (List.mem_cons_of_mem c hc2)) h2]

/-- **C10**: a protocol token that begins with the decimal digits of a
known protocol number and continues with a non-digit character (such as
`"6abc"` with 6 mapped) is translated to that protocol's canonical name
rather than retained verbatim, because `parseInt` accepts a numeric
prefix. -/
theorem numeric_prefix_translates :
    ∀ (tbl : ProtocolTable) (n : Nat) (rest : String) (nm : String),
      (∀ c, rest.toList.head? = some c → c.isDigit = false) →
      tbl (n : Int) = some nm →
      handleFields tbl "protocol" (natDecimal n ++ rest) = nm := by
  intro tbl n rest nm hrest htbl
  have hrevne : (natDigitsLE n).reverse ≠ [] := by
    intro e
    exact natDigitsLE_ne_nil n (List.reverse_eq_nil_iff.mp e)
  obtain ⟨d0, ds, hds⟩ := List.exists_cons_of_ne_nil hrevne
  have hdigits : ∀ c ∈ (natDigitsLE n).reverse.map Nat.digitChar, c.isDigit = true := by
    intro c hc
    obtain ⟨d, hd, rfl⟩ := List.mem_map.mp hc
    exact (digitChar_props d (natDigitsLE_lt n d (List.mem_reverse.mp hd))).1
  have hlist : (natDecimal n ++ rest).toList =
      (natDigitsLE n).reverse.map Nat.digitChar ++ rest.toList := by
    cases rest with
    | mk lr => rfl
  have hd0mem : d0 ∈ (natDigitsLE n).reverse := by
    rw [hds]
    exact List.mem_cons_self d0 ds
  have hd0 : d0 < 10 := natDigitsLE_lt n d0 (List.mem_reverse.mp hd0mem)
  have hprops := digitChar_props d0 hd0
  have hcons : (natDigitsLE n).reverse.map Nat.digitChar =
      Nat.digitChar d0 :: ds.map Nat.digitChar := by
    rw [hds, List.map_cons]
  have hparse : jsParseInt (natDecimal n ++ rest) = some (n : Int) := by
    unfold jsParseInt
    rw [hlist, hcons]
    simp only [List.cons_append, List.dropWhile_cons, hprops.2.1, if_false,
      Bool.false_eq_true, reduceIte, List.head?_cons]
    rw [if_neg (by simp [hprops.2.2.1]), if_neg (by simp [hprops.2.2.2.1])]
    have htake : ((Nat.digitChar d0 :: ds.map Nat.digitChar) ++ rest.toList).takeWhile
        Char.isDigit = Nat.digitChar d0 :: ds.map Nat.digitChar := by
      apply takeWhile_append_of_head
      · rw [← hcons]; exact hdigits
      · exact hrest
    unfold leadingDigits
    simp only [List.cons_append] at htake
    rw [htake]
    simp only [List.isEmpty_cons, if_false, Bool.false_eq_true, reduceIte]
    rw [← hcons, digitsVal_natDecimal n]
    simp
  simp [handleFields, hparse, htbl]

/-- Closed instance of `numeric_prefix_translates`: `"6abc"` becomes
`"tcp"`. -/
theorem numeric_prefix_translates_witness :
    handleFields exampleProtocolTable "protocol" "6abc" = "tcp" := by
  have h := numeric_prefix_translates exampleProtocolTable 6 "abc" "tcp"
    (by intro c hc; cases hc; decide) (by decide)
  have h6 : natDigitsLE 6 = [6] := by
    unfold natDigitsLE
    norm_num
  have e : natDecimal 6 ++ "abc" = "6abc" := by
    unfold natDecimal
    rw [h6]
    rfl
  rw [e] at h
  exact h

/-! ## Splitting and trimming lemmas for the flow-record line parser -/

theorem jsStr_toList_append (a b : String) :
    (a ++ b).toList = a.toList ++ b.toList :=
  String.data_append a b

theorem mk_toList (s : String) : String.mk s.toList = s := rfl

theorem joinSpace_singleton (t : String) : joinSpace [t] = t := by
  simp [joinSpace]

theorem joinSpace_cons (t t2 : String) (ts : List String) :
    joinSpace (t :: t2 :: ts) = (t ++ " ") ++ joinSpace (t2 :: ts) := by
  simp [joinSpace]

theorem splitAux_no_sep (sep : Char) :
    ∀ (l cur : List Char), (∀ c ∈ l, ¬c = sep) →
      splitAux sep l cur = [String.mk (cur ++ l)] := by
  intro l
  induction l with
  | nil => intro cur _; simp [splitAux]
  | cons c cs ih =>
    intro cur h
    have hc : ¬c = sep := h c (List.mem_cons_self c cs)
    simp only [splitAux, hc, if_false, reduceIte]
    rw [ih (cur ++ [c]) (fun c2 h2 => h c2 (List.mem_cons_of_mem c h2))]
    simp

theorem splitAux_sep (sep : Char) :
    ∀ (l1 l2 cur : List Char), (∀ c ∈ l1, ¬c = sep) →
      splitAux sep (l1 ++ sep :: l2) cur =
        String.mk (cur ++ l1) :: splitAux sep l2 [] := by
  intro l1
  induction l1 with
  | nil =>
    intro l2 cur _
    simp [splitAux]
  | cons c cs ih =>
    intro l2 cur h
    have hc : ¬c = sep := h c (List.mem_cons_self c cs)
    simp only [List.cons_append, splitAux, hc, if_false, reduceIte,
      List.append_eq]
    rw [ih l2 (cur ++ [c]) (fun c2 h2 => h c2 (List.mem_cons_of_mem c h2))]
    simp

theorem jsSplit_joinSpace :
    ∀ (ts : List String), ts ≠ [] → (∀ t ∈ ts, ∀ c ∈ t.toList, ¬c = ' ') →
      jsSplit (joinSpace ts) ' ' = ts := by
  intro ts
  induction ts with
  | nil => intro h _; exact absurd rfl h
  | cons t ts ih =>
    intro _ h
    cases ts with
    | nil =>
      rw [joinSpace_singleton]
      unfold jsSplit
      rw [splitAux_no_sep ' ' t.toList [] (h t (List.mem_cons_self t []))]
      simp [mk_toList]
    | cons t2 ts2 =>
      unfold jsSplit
      have hlist : (joinSpace (t :: t2 :: ts2)).toList =
          t.toList ++ ' ' :: (joinSpace (t2 :: ts2)).toList := by
        rw [joinSpace_cons, jsStr_toList_append, jsStr_toList_append]
        simp
      rw [hlist,
        splitAux_sep ' ' t.toList (joinSpace (t2 :: ts2)).toList []
          (h t (List.mem_cons_self t (t2 :: ts2)))]
      have hrest := ih (by simp)
        (fun t3 h3 c hc => h t3 (List.mem_cons_of_mem t h3) c hc)
      unfold jsSplit at hrest
      rw [hrest]
      simp [mk_toList]

theorem jsTrim_eq_self (s : String)
    (h1 : ∀ c, s.toList.head? = some c → isJsWs c = false)
    (h2 : ∀ c, s.toList.reverse.head? = some c → isJsWs c = false) :
    jsTrim s = s := by
  unfold jsTrim
  have e1 : s.toList.dropWhile isJsWs = s.toList := by
    cases hl : s.toList with
    | nil => rfl
    | cons c cs =>
      have hc := h1 c (by rw [hl]; rfl)
      rw [List.dropWhile_cons, hc]
      simp
  rw [e1]
  have e2 : s.toList.reverse.dropWhile isJsWs = s.toList.reverse := by
    cases hl : s.toList.reverse with
    | nil => rfl
    | cons c cs =>
      have hc := h2 c (by rw [hl]; rfl)
      rw [List.dropWhile_cons, hc]
      simp
  rw [e2, List.reverse_reverse]
  exact mk_toList s

theorem joinSpace_head_decomp (t : String) (ts : List String) :
    ∃ tl, (joinSpace (t :: ts)).toList = t.toList ++ tl := by
  cases ts with
  | nil => exact ⟨[], by simp [joinSpace_singleton]⟩
  | cons t2 ts2 =>
    refine ⟨' ' :: (joinSpace (t2 :: ts2)).toList, ?_⟩
    rw [joinSpace_cons, jsStr_toList_append, jsStr_toList_append]
    simp

theorem joinSpace_last_decomp :
    ∀ (ts : List String) (t : String), ∃ pre t2, t2 ∈ t :: ts ∧
      (joinSpace (t :: ts)).toList = pre ++ t2.toList := by
  intro ts
  induction ts with
  | nil => intro t; exact ⟨[], t, List.mem_cons_self t [], by simp [joinSpace_singleton]⟩
  | cons t2 ts2 ih =>
    intro t
    obtain ⟨pre, t3, hmem, heq⟩ := ih t2
    refine ⟨t.toList ++ ' ' :: pre, t3, List.mem_cons_of_mem t hmem, ?_⟩
    rw [joinSpace_cons, jsStr_toList_append, jsStr_toList_append, heq]
    simp

/-- **C1 (counterexample)**: a line whose 14 fields are separated by runs
of two spaces: splitting on whitespace runs yields exactly 14 fields, yet
`parseLineFromLog` (which splits on single spaces, producing empty tokens
at each double space) drops the line instead of producing a record. -/
theorem runs_of_whitespace_line_dropped :
    (wsRunSplit "2  123456789012  eni-abc  10.0.0.1  10.0.0.2  443  80  6  10  1000  1610000000  1610000010  ACCEPT  OK").length =
      AVAILABLE_FIELDS_DEFAULT.length ∧
    parseLineFromLog exampleProtocolTable
      "2  123456789012  eni-abc  10.0.0.1  10.0.0.2  443  80  6  10  1000  1610000000  1610000010  ACCEPT  OK"
      AVAILABLE_FIELDS_DEFAULT = none :=
  ⟨by decide, by decide⟩

/-- **C1 (amended)**: for every log line whose 14 fields are separated by
exactly one space character each (fields non-empty and free of whitespace
characters), the parser splits the trimmed line into exactly those 14
tokens and produces a FlowRecord rather than dropping the line. -/
theorem singlespace_line_parses :
    ∀ (tbl : ProtocolTable) (tokens : List String),
      tokens.length = AVAILABLE_FIELDS_DEFAULT.length →
      (∀ t ∈ tokens, t.toList ≠ []) →
      (∀ t ∈ tokens, ∀ c ∈ t.toList, isJsWs c = false) →
      jsSplit (jsTrim (joinSpace tokens)) ' ' = tokens ∧
      ∃ r, parseLineFromLog tbl (joinSpace tokens) AVAILABLE_FIELDS_DEFAULT =
        some r := by
  intro tbl tokens hlen hne hws
  cases tokens with
  | nil => exact absurd hlen (by decide)
  | cons t0 ts =>
    have htrim : jsTrim (joinSpace (t0 :: ts)) = joinSpace (t0 :: ts) := by
      apply jsTrim_eq_self
      · intro c hc
        obtain ⟨tl, htl⟩ := joinSpace_head_decomp t0 ts
        rw [htl] at hc
        obtain ⟨c0, cs0, h0⟩ := List.exists_cons_of_ne_nil
          (hne t0 (List.mem_cons_self t0 ts))
        rw [h0] at hc
        simp only [List.cons_append, List.head?_cons, Option.some.injEq] at hc
        subst hc
        exact hws t0 (List.mem_cons_self t0 ts) c0
          (by rw [h0]; exact List.mem_cons_self c0 cs0)
      · intro c hc
        obtain ⟨pre, t2, hmem, heq⟩ := joinSpace_last_decomp ts t0
        rw [heq] at hc
        have hrevne : t2.toList.reverse ≠ [] := by
          intro e
          exact hne t2 hmem (List.reverse_eq_nil_iff.mp e)
        obtain ⟨c0, cs0, h0⟩ := List.exists_cons_of_ne_nil hrevne
        rw [List.reverse_append, h0] at hc
        simp only [List.cons_append, List.head?_cons, Option.some.injEq] at hc
        subst hc
        have hc0mem : c0 ∈ t2.toList := by
          rw [← List.mem_reverse, h0]
          exact List.mem_cons_self c0 cs0
        exact hws t2 hmem c0 hc0mem
    have hchars : ∀ t ∈ t0 :: ts, ∀ c ∈ t.toList, ¬c = ' ' := by
      intro t ht c hc he
      have hcws := hws t ht c hc
      rw [he] at hcws
      exact absurd hcws (by decide)
    have hsplit : jsSplit (jsTrim (joinSpace (t0 :: ts))) ' ' = t0 :: ts := by
      rw [htrim]
      exact jsSplit_joinSpace (t0 :: ts) (by simp) hchars
    refine ⟨hsplit, buildRecord tbl AVAILABLE_FIELDS_DEFAULT (t0 :: ts), ?_⟩
    simp [parseLineFromLog, hsplit, hlen]

/-- Closed instance of `singlespace_line_parses` at a concrete 14-field
line. -/
theorem singlespace_line_parses_witness :
    jsSplit (jsTrim (joinSpace ["2", "123456789012", "eni-abc", "10.0.0.1",
        "10.0.0.2", "443", "80", "6", "10", "1000", "1610000000",
        "1610000010", "ACCEPT", "OK"])) ' ' =
      ["2", "123456789012", "eni-abc", "10.0.0.1", "10.0.0.2", "443", "80",
        "6", "10", "1000", "1610000000", "1610000010", "ACCEPT", "OK"] ∧
    ∃ r, parseLineFromLog exampleProtocolTable
      (joinSpace ["2", "123456789012", "eni-abc", "10.0.0.1", "10.0.0.2",
        "443", "80", "6", "10", "1000", "1610000000", "1610000010",
        "ACCEPT", "OK"]) AVAILABLE_FIELDS_DEFAULT = some r :=
  singlespace_line_parses exampleProtocolTable
    ["2", "123456789012", "eni-abc", "10.0.0.1", "10.0.0.2", "443", "80",
      "6", "10", "1000", "1610000000", "1610000010", "ACCEPT", "OK"]
    (by decide) (by decide) (by decide)

/-! ## Positional record building -/

theorem jsMapSet_fresh {α : Type} :
    ∀ (m : List (String × α)) (k : String) (v : α),
      jsMapGet m k = none → jsMapSet m k v = m ++ [(k, v)] := by
  intro m
  induction m with
  | nil => intro k v _; rfl
  | cons p rest ih =>
    intro k v h
    unfold jsMapGet at h
    by_cases hp : p.1 = k
    · rw [if_pos hp] at h
      exact absurd h (by simp)
    · rw [if_neg hp] at h
      simp only [jsMapSet, hp, if_false, reduceIte, List.cons_append]
      rw [ih k v h]

theorem jsMapGet_append_of_none {α : Type} :
    ∀ (m1 m2 : List (String × α)) (k : String),
      jsMapGet m1 k = none → jsMapGet (m1 ++ m2) k = jsMapGet m2 k := by
  intro m1
  induction m1 with
  | nil => intro m2 k _; rfl
  | cons p rest ih =>
    intro m2 k h
    unfold jsMapGet at h
    by_cases hp : p.1 = k
    · rw [if_pos hp] at h
      exact absurd h (by simp)
    · rw [if_neg hp] at h
      simp only [List.cons_append, jsMapGet, hp, if_false, reduceIte]
      exact ih m2 k h

theorem foldl_jsMapSet_eq_map (f : String → String → String) :
    ∀ (ps : List (String × String)) (acc : List (String × String)),
      (∀ p ∈ ps, jsMapGet acc p.1 = none) → (ps.map Prod.fst).Nodup →
      ps.foldl (fun a kv => jsMapSet a kv.1 (f kv.1 kv.2)) acc =
        acc ++ ps.map (fun kv => (kv.1, f kv.1 kv.2)) := by
  intro ps
  induction ps with
  | nil => intro acc _ _; simp
  | cons p ps ih =>
    intro acc hfresh hnodup
    simp only [List.foldl_cons]
    have hset : jsMapSet acc p.1 (f p.1 p.2) = acc ++ [(p.1, f p.1 p.2)] :=
      jsMapSet_fresh acc p.1 _ (hfresh p (List.mem_cons_self p ps))
    rw [hset]
    simp only [List.map_cons, List.nodup_cons] at hnodup
    have hfresh2 : ∀ q ∈ ps, jsMapGet (acc ++ [(p.1, f p.1 p.2)]) q.1 = none := by
      intro q hq
      rw [jsMapGet_append_of_none acc _ q.1 (hfresh q (List.mem_cons_of_mem p hq))]
      have hne : ¬p.1 = q.1 := by
        intro e
        rw [e] at hnodup
        exact hnodup.1 (List.mem_map_of_mem Prod.fst hq)
      simp [jsMapGet, hne]
    rw [ih (acc ++ [(p.1, f p.1 p.2)]) hfresh2 hnodup.2]
    simp

theorem jsMapGet_map_of_nodup :
    ∀ (m : List (String × String)) (k v : String),
      (m.map Prod.fst).Nodup → (k, v) ∈ m → jsMapGet m k = some v := by
  intro m
  induction m with
  | nil => intro k v _ h; exact absurd h (List.not_mem_nil _)
  | cons p rest ih =>
    intro k v hnodup hmem
    simp only [List.map_cons, List.nodup_cons] at hnodup
    rcases List.mem_cons.mp hmem with he | hm
    · rw [← he]
      simp [jsMapGet]
    · by_cases hp : p.1 = k
      · exfalso
        apply hnodup.1
        rw [hp]
        exact List.mem_map_of_mem Prod.fst hm
      · simp only [jsMapGet, hp, if_false, reduceIte]
        exact ih k v hnodup.2 hm

/-- **C2 (counterexample)**: a line whose 14 fields are separated by tab
characters: its whitespace-split token count is exactly the 14-entry field
list, yet the parser (which splits on the space character only) produces
no FlowRecord for it. -/
theorem tab_separated_line_dropped :
    (wsRunSplit "2\t123456789012\teni-abc\t10.0.0.1\t10.0.0.2\t443\t80\t6\t10\t1000\t1610000000\t1610000010\tACCEPT\tOK").length =
      AVAILABLE_FIELDS_DEFAULT.length ∧
    parseLineFromLog exampleProtocolTable
      "2\t123456789012\teni-abc\t10.0.0.1\t10.0.0.2\t443\t80\t6\t10\t1000\t1610000000\t1610000010\tACCEPT\tOK"
      AVAILABLE_FIELDS_DEFAULT = none :=
  ⟨by decide, by decide⟩

/-- **C2 (amended)**: for every log line whose single-space-split token
count (after trimming) exactly equals the 14-entry field list, the parser
produces exactly one FlowRecord whose field values positionally match the
input tokens, with the protocol field replaced by the canonical protocol
name exactly when a protocol-number-table entry exists for the parsed
integer, and the raw token retained otherwise. -/
theorem parse_positional_match :
    ∀ (tbl : ProtocolTable) (line : String),
      (jsSplit (jsTrim line) ' ').length = AVAILABLE_FIELDS_DEFAULT.length →
      ∃ r, parseLineFromLog tbl line AVAILABLE_FIELDS_DEFAULT = some r ∧
        (∀ i, i < AVAILABLE_FIELDS_DEFAULT.length →
          jsMapGet r (AVAILABLE_FIELDS_DEFAULT.getD i "") =
            some (handleFields tbl (AVAILABLE_FIELDS_DEFAULT.getD i "")
              ((jsSplit (jsTrim line) ' ').getD i ""))) ∧
        (∀ v, (∀ n : Int, jsParseInt v = some n → ∀ nm, tbl n = some nm →
            handleFields tbl "protocol" v = nm) ∧
          ((jsParseInt v).bind tbl = none →
            handleFields tbl "protocol" v = v)) := by
  intro tbl line hlen
  have hfmt_nodup : AVAILABLE_FIELDS_DEFAULT.Nodup := by decide
  have hle : AVAILABLE_FIELDS_DEFAULT.length ≤ (jsSplit (jsTrim line) ' ').length :=
    le_of_eq hlen.symm
  have hbuild : buildRecord tbl AVAILABLE_FIELDS_DEFAULT (jsSplit (jsTrim line) ' ') =
      (AVAILABLE_FIELDS_DEFAULT.zip (jsSplit (jsTrim line) ' ')).map
        (fun kv => (kv.1, handleFields tbl kv.1 kv.2)) := by
    unfold buildRecord
    apply foldl_jsMapSet_eq_map (handleFields tbl)
    · intro p _
      rfl
    · rw [List.map_fst_zip AVAILABLE_FIELDS_DEFAULT (jsSplit (jsTrim line) ' ') hle]
      exact hfmt_nodup
  refine ⟨buildRecord tbl AVAILABLE_FIELDS_DEFAULT (jsSplit (jsTrim line) ' '),
    ?_, ?_, fun v => handleFields_spec tbl v⟩
  · simp [parseLineFromLog, hlen]
  · intro i hi
    have hitoks : i < (jsSplit (jsTrim line) ' ').length := by omega
    have hzip : i < (AVAILABLE_FIELDS_DEFAULT.zip (jsSplit (jsTrim line) ' ')).length := by
      rw [List.length_zip]
      omega
    have hmap : i < ((AVAILABLE_FIELDS_DEFAULT.zip (jsSplit (jsTrim line) ' ')).map
        (fun kv => (kv.1, handleFields tbl kv.1 kv.2))).length := by
      rw [List.length_map]
      omega
    rw [hbuild, List.getD_eq_getElem AVAILABLE_FIELDS_DEFAULT "" hi,
      List.getD_eq_getElem (jsSplit (jsTrim line) ' ') "" hitoks]
    apply jsMapGet_map_of_nodup
    · have hkeys : List.map Prod.fst
          ((AVAILABLE_FIELDS_DEFAULT.zip (jsSplit (jsTrim line) ' ')).map
            (fun kv => (kv.1, handleFields tbl kv.1 kv.2))) =
          AVAILABLE_FIELDS_DEFAULT := by
        rw [List.map_map]
        have hcomp : (Prod.fst ∘ fun kv : String × String =>
            (kv.1, handleFields tbl kv.1 kv.2)) = Prod.fst := rfl
        rw [hcomp, List.map_fst_zip AVAILABLE_FIELDS_DEFAULT _ hle]
      rw [hkeys]
      exact hfmt_nodup
    · have hel : ((AVAILABLE_FIELDS_DEFAULT.zip (jsSplit (jsTrim line) ' ')).map
          (fun kv => (kv.1, handleFields tbl kv.1 kv.2)))[i] =
          (AVAILABLE_FIELDS_DEFAULT[i],
            handleFields tbl AVAILABLE_FIELDS_DEFAULT[i]
              (jsSplit (jsTrim line) ' ')[i]) := by
        rw [List.getElem_map, List.getElem_zip]
      rw [← hel]
      exact List.getElem_mem hmap

/-- Closed instance of `parse_positional_match`: a well-formed
single-space line yields a record whose `protocol` field was translated
to `"tcp"`. -/
theorem parse_positional_match_witness :
    ∃ r, parseLineFromLog exampleProtocolTable
      "2 123456789012 eni-abc 10.0.0.1 10.0.0.2 443 80 6 10 1000 1610000000 1610000010 ACCEPT OK"
      AVAILABLE_FIELDS_DEFAULT = some r ∧
      jsMapGet r "protocol" = some "tcp" := by
  have h := parse_positional_match exampleProtocolTable
    "2 123456789012 eni-abc 10.0.0.1 10.0.0.2 443 80 6 10 1000 1610000000 1610000010 ACCEPT OK"
    (by decide)
  obtain ⟨r, hr, hfields, _⟩ := h
  refine ⟨r, hr, ?_⟩
  have h7 := hfields 7 (by decide)
  have e1 : AVAILABLE_FIELDS_DEFAULT.getD 7 "" = "protocol" := by decide
  have e2 : (jsSplit (jsTrim "2 123456789012 eni-abc 10.0.0.1 10.0.0.2 443 80 6 10 1000 1610000000 1610000010 ACCEPT OK") ' ').getD 7 "" = "6" := by
    decide
  rw [e1, e2] at h7
  have e3 : handleFields exampleProtocolTable "protocol" "6" = "tcp" := by decide
  rw [e3] at h7
  exact h7

end FlowLog
